import Mathlib

/-!
Shallow embedding of the virtual smart home registry (`vshome/main.go`).

Dynamic Go values (`interface{}` as produced by the JSON/YAML decoders)
are modelled by the inductive `GoValue`.  Go `float64`/`float32` values are
modelled as exact rationals (`ℚ`); the claims settled here concern
comparisons, clamping and truncation, which exact rationals model
faithfully for the inputs involved.  Go maps (`map[string]interface{}` and
the registry's `map[string]*Device`) are modelled as association lists
with the Go map operations `mapGet`/`mapSet`.
-/

/-- A dynamic Go value as produced by decoding JSON/YAML into `interface{}`.
`vNumber` models `json.Number` (a number token kept in its decimal string
form by the decoder); `vOther` stands for every dynamic type the program
never inspects (objects, arrays, nil, ...). -/
inductive GoValue where
  | vInt : Int → GoValue
  | vInt64 : Int → GoValue
  | vFloat64 : ℚ → GoValue
  | vFloat32 : ℚ → GoValue
  | vNumber : String → GoValue
  | vBool : Bool → GoValue
  | vString : String → GoValue
  | vOther : GoValue
deriving DecidableEq

/-- Accumulate the value of a digit string; fails on a non-digit. -/
def parseDigitsAux : List Char → Nat → Option Nat
  | [], acc => some acc
  | c :: rest, acc =>
    if c.isDigit then parseDigitsAux rest (acc * 10 + (c.toNat - 48)) else none

/-- Value of a non-empty all-digit string. -/
def parseDigits : List Char → Option Nat
  | [] => none
  | cs => parseDigitsAux cs 0

/-- Split an optional leading sign off a character list; returns
(negative?, remaining characters). -/
def splitSign : List Char → Bool × List Char
  | '-' :: rest => (true, rest)
  | '+' :: rest => (false, rest)
  | cs => (false, cs)

/-- Models `strconv.ParseInt(s, 10, 64)` as used by `json.Number.Int64`:
an optional sign followed by at least one decimal digit, with the int64
range check (out-of-range input is an error). -/
def parseInt64 (s : String) : Option Int :=
  let (neg, digits) := splitSign s.toList
  match parseDigits digits with
  | none => none
  | some n =>
    let v : Int := if neg then -(n : Int) else (n : Int)
    if -(2 ^ 63) ≤ v ∧ v ≤ 2 ^ 63 - 1 then some v else none

/-- Split a character list at the first dot: (integer part, fractional
part if a dot is present). -/
def splitDot : List Char → List Char × Option (List Char)
  | [] => ([], none)
  | '.' :: rest => ([], some rest)
  | c :: rest =>
    let (ip, fp) := splitDot rest
    (c :: ip, fp)

/-- Value of a (possibly empty) digit string, for use after the digits
have been checked. -/
def digitsVal (cs : List Char) : Nat :=
  cs.foldl (fun acc c => acc * 10 + (c.toNat - 48)) 0

/-- Models `strconv.ParseFloat(s, 64)` as used by `json.Number.Float64`,
restricted to plain decimal literals (optional sign, digits, optional
fractional part, at least one digit in total); exponent, hex, inf and nan
forms are not modelled, and the parsed value is kept as an exact rational
rather than the nearest binary float. -/
def parseFloat (s : String) : Option ℚ :=
  let (neg, body) := splitSign s.toList
  let (ip, fpOpt) := splitDot body
  let fp := fpOpt.getD []
  if ip.all Char.isDigit ∧ fp.all Char.isDigit ∧ ip.length + fp.length ≠ 0 then
    let mag : Int := (digitsVal ip) * (10 : Int) ^ fp.length + (digitsVal fp)
    let num : Int := if neg then -mag else mag
    some (Rat.divInt num ((10 : Int) ^ fp.length))
  else
    none

/-- Go's conversion `int(f)` of a float to an integer: truncation toward
zero. -/
def goTrunc (q : ℚ) : Int :=
  if 0 ≤ q then Int.floor q else Int.ceil q

/-- `clampInt` (main.go lines 165-173). -/
def clampInt (value mn mx : Int) : Int :=
  if value < mn then mn
  else if value > mx then mx
  else value

/-- `clampFloat` (main.go lines 175-183). -/
def clampFloat (value mn mx : ℚ) : ℚ :=
  if value < mn then mn
  else if value > mx then mx
  else value

/-- `clampToInt` (main.go lines 129-145).  A float is rounded by
`int(number + 0.5)`; a `json.Number` is interpreted through
`Int64()` and falls through to `min` when that parse fails; every other
dynamic type falls through to `min`. -/
def clampToInt (value : GoValue) (mn mx : Int) : Int :=
  match value with
  | GoValue.vInt n => clampInt n mn mx
  | GoValue.vInt64 n => clampInt n mn mx
  | GoValue.vFloat64 x => clampInt (goTrunc (x + 1/2)) mn mx
  | GoValue.vFloat32 x => clampInt (goTrunc (x + 1/2)) mn mx
  | GoValue.vNumber s =>
    match parseInt64 s with
    | some n => clampInt n mn mx
    | none => mn
  | _ => mn

/-- `clampToFloat` (main.go lines 147-163). -/
def clampToFloat (value : GoValue) (mn mx : ℚ) : ℚ :=
  match value with
  | GoValue.vFloat64 x => clampFloat x mn mx
  | GoValue.vFloat32 x => clampFloat x mn mx
  | GoValue.vInt n => clampFloat (n : ℚ) mn mx
  | GoValue.vInt64 n => clampFloat (n : ℚ) mn mx
  | GoValue.vNumber s =>
    match parseFloat s with
    | some x => clampFloat x mn mx
    | none => mn
  | _ => mn

/-- ASCII lower-casing of one character. -/
def charLower (c : Char) : Char :=
  if 'A' ≤ c ∧ c ≤ 'Z' then Char.ofNat (c.toNat + 32) else c

/-- Models `strings.EqualFold` restricted to ASCII case folding. -/
def eqFold (s t : String) : Bool :=
  s.toList.map charLower == t.toList.map charLower

/-- `toBool` (main.go lines 185-200).  Note the `case string` arm does not
match `json.Number` (a distinct named type in Go), and there is no
`float32` arm, so both fall to the default `false`. -/
def toBool (value : GoValue) : Bool :=
  match value with
  | GoValue.vBool b => b
  | GoValue.vString s => eqFold s "true" || s == "1" || eqFold s "on"
  | GoValue.vInt n => n != 0
  | GoValue.vInt64 n => n != 0
  | GoValue.vFloat64 x => decide (x ≠ 0)
  | _ => false

/-- `normalizeValue` (main.go lines 106-127). -/
def normalizeValue (kind key : String) (value : GoValue) : GoValue :=
  if kind = "blind" ∨ kind = "humidifier" then
    if key = "position" ∨ key = "level" then GoValue.vInt (clampToInt value 0 100)
    else value
  else if kind = "thermostat" then
    if key = "temperature" then GoValue.vFloat64 (clampToFloat value 10 30)
    else value
  else if kind = "toggle" ∨ kind = "lock" ∨ kind = "sensor" ∨ kind = "toaster" ∨
      kind = "doors" ∨ kind = "vacuum" then
    if key = "on" ∨ key = "open" ∨ key = "locked" then GoValue.vBool (toBool value)
    else if key = "mode" then
      match value with
      | GoValue.vString s => GoValue.vString s.trim
      | _ => value
    else value
  else value

/-- The state of one device: a Go `map[string]interface{}`, modelled as an
association list with distinct keys. -/
abbrev GoState := List (String × GoValue)

/-- Go map read `m[k]`: the value stored for key `k`, if any. -/
def mapGet {α : Type} (m : List (String × α)) (k : String) : Option α :=
  match m with
  | [] => none
  | (k2, v) :: rest => if k2 = k then some v else mapGet rest k

/-- Go map write `m[k] = v`: replaces the binding of `k` or appends a new
binding. -/
def mapSet {α : Type} (m : List (String × α)) (k : String) (v : α) : List (String × α) :=
  match m with
  | [] => [(k, v)]
  | (k2, v2) :: rest => if k2 = k then (k, v) :: rest else (k2, v2) :: mapSet rest k v

/-- `Device` (main.go lines 19-25). -/
structure Device where
  id : String
  name : String
  kind : String
  room : String
  state : GoState
deriving DecidableEq

/-- A device as decoded from the YAML catalog, before `loadDevices` runs:
the `state` mapping may be absent (a nil Go map). -/
structure RawDevice where
  id : String
  name : String
  kind : String
  room : String
  state : Option GoState
deriving DecidableEq

/-- `Store` (main.go lines 31-35): the device map plus catalog load order.
The mutex only serializes access and has no pure counterpart. -/
structure Store where
  devices : List (String × Device)
  order : List String
deriving DecidableEq

/-- `NewStore` (main.go lines 40-50).  In the pure model the deep copy
performed by `copyState` is the identity; aliasing behaviour is treated
separately in the heap model below. -/
def NewStore (devs : List Device) : Store :=
  { devices := devs.foldl (fun m d => mapSet m d.id d) []
    order := devs.map (fun d => d.id) }

/-- `Store.Get` (main.go lines 68-78): returns a snapshot of one device,
or nothing when the id is unknown. -/
def Store.Get (s : Store) (id : String) : Option Device :=
  mapGet s.devices id

/-- `Store.Update` (main.go lines 80-93): merges the supplied key/value
pairs into the device's state, normalizing each incoming value, and
returns the updated store together with the device snapshot or the
not-found error. -/
def Store.Update (s : Store) (id : String) (upd : List (String × GoValue)) :
    Store × Except String Device :=
  match mapGet s.devices id with
  | none => (s, Except.error ("device not found: " ++ id))
  | some d =>
    let d2 : Device :=
      { d with
        state := upd.foldl (fun st kv => mapSet st kv.1 (normalizeValue d.kind kv.1 kv.2)) d.state }
    ({ s with devices := mapSet s.devices id d2 }, Except.ok d2)

/-- `Store.List` (main.go lines 52-66): snapshots of every device in load
order, skipping ids missing from the map. -/
def Store.List (s : Store) : List Device :=
  s.order.filterMap (fun id => mapGet s.devices id)

/-- Replace a nil state by an empty map, as `loadDevices` does
(main.go lines 405-407). -/
def fixDevice (d : RawDevice) : Device :=
  { id := d.id, name := d.name, kind := d.kind, room := d.room, state := d.state.getD [] }

/-- The validation loop of `loadDevices` (main.go lines 396-409), with the
set of already-seen ids made explicit. -/
def checkDevices : List RawDevice → List String → Except String (List Device)
  | [], _ => Except.ok []
  | d :: rest, seen =>
    if d.id = "" ∨ d.name = "" ∨ d.kind = "" then
      Except.error "device missing id, name, or kind"
    else if d.id ∈ seen then
      Except.error ("duplicate device id: " ++ d.id)
    else
      match checkDevices rest (d.id :: seen) with
      | Except.ok ds => Except.ok (fixDevice d :: ds)
      | Except.error e => Except.error e

/-- `loadDevices` (main.go lines 381-410) applied to the decoded catalog;
opening and YAML-decoding the file are the external boundary. -/
def loadDevices (catalog : List RawDevice) : Except String (List Device) :=
  if catalog.length = 0 then Except.error "no devices defined"
  else checkDevices catalog []

/-- The startup sequence of `main` (main.go lines 316-320): the registry
is only constructed when the catalog loads successfully, otherwise the
process aborts with the configuration error. -/
def startRegistry (catalog : List RawDevice) : Except String Store :=
  (loadDevices catalog).map NewStore

/-- An inbound websocket message (`WSSetMessage`, main.go lines 209-213).
An absent `state` object decodes to a nil map, modelled as `[]`. -/
structure WSSetMessage where
  type : String
  id : String
  state : List (String × GoValue)
deriving DecidableEq

/-- An outbound websocket message (`WSMessage`, main.go lines 202-207),
restricted to the three shapes the hub produces. -/
inductive WSReply where
  | stateMsg : List Device → WSReply
  | updateMsg : Device → WSReply
  | errorMsg : String → WSReply
deriving DecidableEq

/-- One iteration of the websocket read loop of `HandleWS`
(main.go lines 277-299): returns the updated store, the direct reply sent
only to the requesting connection (if any), and the device snapshot put on
the broadcast channel (if any). -/
def handleIncoming (s : Store) (m : WSSetMessage) : Store × Option WSReply × Option Device :=
  if m.type ≠ "set" then
    (s, some (WSReply.errorMsg "unsupported message type"), none)
  else if m.id = "" then
    (s, some (WSReply.errorMsg "missing device id"), none)
  else
    match s.Update m.id m.state with
    | (s2, Except.ok d) => (s2, none, some d)
    | (s2, Except.error e) => (s2, some (WSReply.errorMsg e), none)

/-- Outcome of one HTTP request, as status code plus payload. -/
inductive HTTPResult where
  | ok : Device → HTTPResult
  | err : Nat → String → HTTPResult
deriving DecidableEq

/-- The `PUT /api/devices/{id}` handler body (main.go lines 347-365):
`body = none` models a request whose JSON fails to decode; otherwise the
decoded `state` map is given (an absent `state` field decodes to a nil
map, modelled as `[]`).  Returns the updated store, the HTTP response, and
the device snapshot put on the broadcast channel (if any). -/
def handlePut (s : Store) (id : String) (body : Option (List (String × GoValue))) :
    Store × HTTPResult × Option Device :=
  match body with
  | none => (s, HTTPResult.err 400 "invalid json", none)
  | some st =>
    if st.length = 0 then (s, HTTPResult.err 400 "missing state", none)
    else
      match s.Update id st with
      | (s2, Except.ok d) => (s2, HTTPResult.ok d, some d)
      | (s2, Except.error e) => (s2, HTTPResult.err 404 e, none)

namespace HeapModel

/-!
Go maps are reference values: `copyState` (main.go lines 95-104) copies
the top-level `map[string]interface{}` entry by entry, so an entry that is
itself a reference (a nested map or slice decoded from YAML/JSON) is
shared between the original and the copy.  This small heap model makes
those reference semantics explicit: a heap is a list of maps, an address
is an index into it, and a map entry is either a scalar or a reference to
another map.
-/

/-- A value stored in a map entry: a scalar, or a reference (an index
into the heap) to a nested map living elsewhere on the heap. -/
inductive HVal where
  | scalar : GoValue → HVal
  | ref : Nat → HVal
deriving DecidableEq

/-- A Go map on the heap. -/
abbrev HMap := List (String × HVal)

/-- The heap: map number `a` lives at index `a`. -/
structure Heap where
  maps : List HMap
deriving DecidableEq

/-- The map stored at an address, if the address is live. -/
def mapAt (h : Heap) (a : Nat) : Option HMap :=
  h.maps[a]?

/-- Allocate a fresh map, returning the new heap and its address. -/
def alloc (h : Heap) (m : HMap) : Heap × Nat :=
  (⟨h.maps ++ [m]⟩, h.maps.length)

/-- `copyState` (main.go lines 95-104) in heap form: allocates a new
top-level map holding the same entries; entry values are copied as
values, so a `ref` entry still points at the same nested map.  A nil map
(dead address) copies to a fresh empty map. -/
def copyState (h : Heap) (a : Nat) : Heap × Nat :=
  match mapAt h a with
  | some entries => alloc h entries
  | none => alloc h []

/-- Write `m[k] = v` on the map at address `a` (no-op on a dead
address). -/
def heapWrite (h : Heap) (a : Nat) (k : String) (v : HVal) : Heap :=
  match mapAt h a with
  | some entries => ⟨h.maps.set a (mapSet entries k v)⟩
  | none => h

/-- Read the entry for key `k` of the map at address `a`. -/
def readVal (h : Heap) (a : Nat) (k : String) : Option HVal :=
  match mapAt h a with
  | some entries => mapGet entries k
  | none => none

/-- Read through one level of nesting: the entry `k2` of the nested map
referenced by entry `k1` of the map at `a`. -/
def readNested (h : Heap) (a : Nat) (k1 k2 : String) : Option HVal :=
  match readVal h a k1 with
  | some (HVal.ref b) => readVal h b k2
  | _ => none

end HeapModel

/-- Whether `normalizeValue kind key` applies the round-and-clamp-to-int
rule (blind/humidifier position/level). -/
def intRule (kind key : String) : Prop :=
  (kind = "blind" ∨ kind = "humidifier") ∧ (key = "position" ∨ key = "level")

instance (kind key : String) : Decidable (intRule kind key) := by
  unfold intRule; infer_instance

/-- Whether `normalizeValue kind key` applies the boolean coercion rule
(toggle/lock/sensor/toaster/doors/vacuum on/open/locked). -/
def boolRule (kind key : String) : Prop :=
  (kind = "toggle" ∨ kind = "lock" ∨ kind = "sensor" ∨ kind = "toaster" ∨
    kind = "doors" ∨ kind = "vacuum") ∧ (key = "on" ∨ key = "open" ∨ key = "locked")

instance (kind key : String) : Decidable (boolRule kind key) := by
  unfold boolRule; infer_instance

/-- Whether `kind`/`key` is governed by one of the three normalization
rules of the policy table. -/
def normPair (kind key : String) : Prop :=
  intRule kind key ∨ (kind = "thermostat" ∧ key = "temperature") ∨ boolRule kind key

instance (kind key : String) : Decidable (normPair kind key) := by
  unfold normPair; infer_instance

/-- The normalized domain of a `kind`/`key` pair: integers in [0,100] for
blind/humidifier position/level, floats in [10,30] for thermostat
temperature, booleans for the boolean-coerced keys; unconstrained
elsewhere. -/
def inDomain (kind key : String) (v : GoValue) : Bool :=
  if intRule kind key then
    match v with
    | GoValue.vInt n => decide (0 ≤ n ∧ n ≤ 100)
    | _ => false
  else if kind = "thermostat" ∧ key = "temperature" then
    match v with
    | GoValue.vFloat64 x => decide (10 ≤ x ∧ x ≤ 30)
    | _ => false
  else if boolRule kind key then
    match v with
    | GoValue.vBool _ => true
    | _ => false
  else true

/-- Every state value of the device is inside the normalized domain for
its kind. -/
def deviceInv (d : Device) : Bool :=
  d.state.all (fun kv => inDomain d.kind kv.1 kv.2)

/-- Every device of the store satisfies `deviceInv`. -/
def storeInv (s : Store) : Bool :=
  s.devices.all (fun p => deviceInv p.2)

/-- Run a sequence of `Update` calls against the store, ignoring the
returned snapshots. -/
def applyOps (s : Store) (ops : List (String × List (String × GoValue))) : Store :=
  ops.foldl (fun st op => (st.Update op.1 op.2).1) s

/-- The per-device field check of `loadDevices`: id, name and kind must be
non-empty. -/
def deviceFieldsOk (d : RawDevice) : Bool :=
  !(d.id == "") && !(d.name == "") && !(d.kind == "")

/-- A catalog acceptable to the validation loop apart from emptiness:
all three fields present on every device and no duplicate ids. -/
def catalogWellFormed (cat : List RawDevice) : Bool :=
  cat.all deviceFieldsOk && decide ((cat.map RawDevice.id).Nodup)

/-- The device produced by `Store.Update` when it finds device `d`: every
supplied key is written with its normalized value, every other key keeps
its prior value. -/
def mergedDevice (d : Device) (upd : List (String × GoValue)) : Device :=
  { d with state := upd.foldl (fun st kv => mapSet st kv.1 (normalizeValue d.kind kv.1 kv.2)) d.state }

/-- Dynamic types `clampToInt` cannot interpret: string, bool, other, and
a `json.Number` whose `Int64()` parse fails. -/
def intUninterpretable (v : GoValue) : Bool :=
  match v with
  | GoValue.vString _ => true
  | GoValue.vBool _ => true
  | GoValue.vOther => true
  | GoValue.vNumber s => (parseInt64 s).isNone
  | _ => false

/-- Dynamic types `clampToFloat` cannot interpret: string, bool, other,
and a `json.Number` whose `Float64()` parse fails. -/
def floatUninterpretable (v : GoValue) : Bool :=
  match v with
  | GoValue.vString _ => true
  | GoValue.vBool _ => true
  | GoValue.vOther => true
  | GoValue.vNumber s => (parseFloat s).isNone
  | _ => false

/-- Dynamic types `toBool` cannot interpret (its default arm): float32,
`json.Number`, and other. -/
def boolUninterpretable (v : GoValue) : Bool :=
  match v with
  | GoValue.vFloat32 _ => true
  | GoValue.vNumber _ => true
  | GoValue.vOther => true
  | _ => false

/-- A small concrete catalog entry used by witnesses. -/
def demoBlindRaw : RawDevice :=
  { id := "blind1", name := "Blind", kind := "blind", room := "living",
    state := some [("position", GoValue.vInt 50)] }

/-- The loaded form of `demoBlindRaw`. -/
def demoBlind : Device := fixDevice demoBlindRaw

/-- A catalog entry whose initial state is outside the normalized domain
(position 150 on a blind); `loadDevices` accepts it unchanged. -/
def badBlindRaw : RawDevice :=
  { id := "blind2", name := "Blind", kind := "blind", room := "den",
    state := some [("position", GoValue.vInt 150)] }

/-- A heap with a nested map: address 1 holds a device state whose
`nested` entry references the map at address 0. -/
def aliasHeap : HeapModel.Heap :=
  ⟨[[("a", HeapModel.HVal.scalar (GoValue.vInt 1))],
    [("nested", HeapModel.HVal.ref 0)]]⟩

/-- The heap after `HeapModel.copyState aliasHeap 1`: the snapshot map at
address 2 holds the same entries, still referencing address 0. -/
def aliasHeapCopy : HeapModel.Heap :=
  ⟨[[("a", HeapModel.HVal.scalar (GoValue.vInt 1))],
    [("nested", HeapModel.HVal.ref 0)],
    [("nested", HeapModel.HVal.ref 0)]]⟩

theorem rat_add_half (q : ℚ) : q + 1/2 = Rat.divInt (2 * q.num + q.den) (2 * q.den) := by
  have hd : ((q.den : ℤ) : ℚ) ≠ 0 := by exact_mod_cast Rat.den_ne_zero q
  rw [Rat.divInt_eq_div]
  conv_lhs => rw [← Rat.num_div_den q]
  push_cast
  field_simp
  ring

theorem goTrunc_int_add_half (n : Int) :
    goTrunc ((n : ℚ) + 1/2) = if 0 ≤ n then n else n + 1 := by
  have hhalf : Int.ceil ((1:ℚ)/2) = 1 := by
    rw [Int.ceil_eq_iff]; norm_num
  have hfloor : Int.floor ((n : ℚ) + 1/2) = n := by
    rw [add_comm, Int.floor_add_int]
    norm_num
  have hceil : Int.ceil ((n : ℚ) + 1/2) = n + 1 := by
    rw [add_comm, Int.ceil_add_int, hhalf, add_comm]
  by_cases h : (0:ℚ) ≤ (n : ℚ) + 1/2
  · rw [goTrunc, if_pos h, hfloor]
    have hn : 0 ≤ n := by
      by_contra hneg
      push_neg at hneg
      have : (n : ℚ) ≤ -1 := by exact_mod_cast Int.le_sub_one_of_lt hneg
      linarith
    rw [if_pos hn]
  · rw [goTrunc, if_neg h, hceil]
    have hn : ¬ 0 ≤ n := by
      intro hge
      have : (0:ℚ) ≤ (n:ℚ) := by exact_mod_cast hge
      apply h; linarith
    rw [if_neg hn]

theorem mapGet_mapSet_self {α : Type} (m : List (String × α)) (k : String) (v : α) :
    mapGet (mapSet m k v) k = some v := by
  induction m with
  | nil => simp [mapGet, mapSet]
  | cons hd tl ih =>
    obtain ⟨k2, v2⟩ := hd
    by_cases h : k2 = k
    · simp [mapGet, mapSet, h]
    · simp [mapGet, mapSet, h, ih]

theorem mapGet_mapSet_ne {α : Type} (m : List (String × α)) (k k2 : String) (v : α)
    (h : k ≠ k2) : mapGet (mapSet m k v) k2 = mapGet m k2 := by
  induction m with
  | nil => simp [mapGet, mapSet, h]
  | cons hd tl ih =>
    obtain ⟨k3, v3⟩ := hd
    by_cases h3 : k3 = k
    · subst h3
      simp [mapGet, mapSet, h]
    · simp [mapGet, mapSet, h3]
      by_cases h4 : k3 = k2 <;> simp [h4, ih]

theorem mapSet_self {α : Type} (m : List (String × α)) (k : String) (v : α)
    (h : mapGet m k = some v) : mapSet m k v = m := by
  induction m with
  | nil => simp [mapGet] at h
  | cons hd tl ih =>
    obtain ⟨k2, v2⟩ := hd
    by_cases h2 : k2 = k
    · subst h2
      simp [mapGet] at h
      simp [mapSet, h]
    · simp [mapGet, h2] at h
      simp [mapSet, h2, ih h]

theorem mapGet_mem {α : Type} (m : List (String × α)) (k : String) (v : α)
    (h : mapGet m k = some v) : (k, v) ∈ m := by
  induction m with
  | nil => simp [mapGet] at h
  | cons hd tl ih =>
    obtain ⟨k2, v2⟩ := hd
    by_cases h2 : k2 = k
    · subst h2
      simp [mapGet] at h
      simp [h]
    · simp [mapGet, h2] at h
      simp [ih h]

theorem mapSet_all {α : Type} (m : List (String × α)) (k : String) (v : α)
    (P : String × α → Bool) (hm : m.all P = true) (hv : P (k, v) = true) :
    (mapSet m k v).all P = true := by
  induction m with
  | nil => simp [mapSet, hv]
  | cons hd tl ih =>
    obtain ⟨k2, v2⟩ := hd
    simp at hm
    by_cases h2 : k2 = k
    · simp [mapSet, h2, hv, hm.2]
      exact fun a b hab => hm.2 a b hab
    · simp [mapSet, h2, hm.1]
      have := ih (by simp; exact fun a b hab => hm.2 a b hab)
      simp at this
      exact this

theorem mapGet_foldl_mapSet_notMem {α β : Type} (key : β → String) (val : β → α)
    (l : List β) (m0 : List (String × α)) (k : String) (hk : ∀ b ∈ l, key b ≠ k) :
    mapGet (l.foldl (fun m b => mapSet m (key b) (val b)) m0) k = mapGet m0 k := by
  induction l generalizing m0 with
  | nil => simp
  | cons b tl ih =>
    simp only [List.foldl_cons]
    rw [ih (mapSet m0 (key b) (val b)) (fun x hx => hk x (List.mem_cons_of_mem b hx))]
    exact mapGet_mapSet_ne m0 (key b) k (val b) (hk b (List.mem_cons_self b tl))

theorem mergeState_get (kind : String) (st0 : GoState) (upd : List (String × GoValue))
    (h : (upd.map Prod.fst).Nodup) (k : String) :
    mapGet (upd.foldl (fun st kv => mapSet st kv.1 (normalizeValue kind kv.1 kv.2)) st0) k =
      match mapGet upd k with
      | some v => some (normalizeValue kind k v)
      | none => mapGet st0 k := by
  induction upd generalizing st0 with
  | nil => simp [mapGet]
  | cons kv tl ih =>
    obtain ⟨k1, v1⟩ := kv
    simp only [List.map_cons, List.nodup_cons] at h
    simp only [List.foldl_cons]
    by_cases hk : k1 = k
    · subst hk
      rw [mapGet_foldl_mapSet_notMem (fun kv => kv.1) (fun kv => normalizeValue kind kv.1 kv.2)
        tl _ k1 (fun b hb => by
          intro heq
          exact h.1 (heq ▸ List.mem_map_of_mem Prod.fst hb))]
      simp [mapGet, mapGet_mapSet_self]
    · rw [ih (mapSet st0 k1 (normalizeValue kind k1 v1)) h.2]
      simp only [mapGet, hk, if_neg hk]
      cases hfind : mapGet tl k with
      | some v => simp
      | none => simp [mapGet_mapSet_ne st0 k1 k _ hk]

theorem clampInt_bounds (v mn mx : Int) (h : mn ≤ mx) :
    mn ≤ clampInt v mn mx ∧ clampInt v mn mx ≤ mx := by
  unfold clampInt
  split_ifs with h1 h2 <;> omega

theorem clampFloat_bounds (v mn mx : ℚ) (h : mn ≤ mx) :
    mn ≤ clampFloat v mn mx ∧ clampFloat v mn mx ≤ mx := by
  unfold clampFloat
  split_ifs with h1 h2
  · exact ⟨le_refl mn, h⟩
  · exact ⟨h, le_refl mx⟩
  · exact ⟨le_of_not_lt h1, le_of_not_lt h2⟩

theorem clampToInt_bounds (v : GoValue) (mn mx : Int) (h : mn ≤ mx) :
    mn ≤ clampToInt v mn mx ∧ clampToInt v mn mx ≤ mx := by
  unfold clampToInt
  cases v
  case vInt n => exact clampInt_bounds n mn mx h
  case vInt64 n => exact clampInt_bounds n mn mx h
  case vFloat64 x => exact clampInt_bounds _ mn mx h
  case vFloat32 x => exact clampInt_bounds _ mn mx h
  case vNumber s =>
    cases hp : parseInt64 s with
    | some n => simpa [hp] using clampInt_bounds n mn mx h
    | none => simpa [hp] using h
  case vBool b => exact ⟨le_refl mn, h⟩
  case vString s => exact ⟨le_refl mn, h⟩
  case vOther => exact ⟨le_refl mn, h⟩

theorem clampToFloat_bounds (v : GoValue) (mn mx : ℚ) (h : mn ≤ mx) :
    mn ≤ clampToFloat v mn mx ∧ clampToFloat v mn mx ≤ mx := by
  unfold clampToFloat
  cases v
  case vFloat64 x => exact clampFloat_bounds x mn mx h
  case vFloat32 x => exact clampFloat_bounds x mn mx h
  case vInt n => exact clampFloat_bounds _ mn mx h
  case vInt64 n => exact clampFloat_bounds _ mn mx h
  case vNumber s =>
    cases hp : parseFloat s with
    | some x => simpa [hp] using clampFloat_bounds x mn mx h
    | none => simpa [hp] using h
  case vBool b => exact ⟨le_refl mn, h⟩
  case vString s => exact ⟨le_refl mn, h⟩
  case vOther => exact ⟨le_refl mn, h⟩

theorem normalizeValue_intRule (kind key : String) (v : GoValue) (h : intRule kind key) :
    normalizeValue kind key v = GoValue.vInt (clampToInt v 0 100) := by
  obtain ⟨h1, h2⟩ := h
  simp [normalizeValue, h1, h2]

theorem normalizeValue_tempRule (kind key : String) (v : GoValue)
    (h1 : kind = "thermostat") (h2 : key = "temperature") :
    normalizeValue kind key v = GoValue.vFloat64 (clampToFloat v 10 30) := by
  subst h1; subst h2
  simp [normalizeValue]

theorem normalizeValue_boolRule (kind key : String) (v : GoValue) (h : boolRule kind key) :
    normalizeValue kind key v = GoValue.vBool (toBool v) := by
  obtain ⟨h1, h2⟩ := h
  rcases h1 with rfl | rfl | rfl | rfl | rfl | rfl <;>
    rcases h2 with rfl | rfl | rfl <;> simp [normalizeValue]

theorem normalizeValue_passthrough (kind key : String) (v : GoValue)
    (h : ¬ normPair kind key) (hm : ¬ (key = "mode")) :
    normalizeValue kind key v = v := by
  unfold normalizeValue
  split_ifs with c1 c2 c3 c4 c5 c6 <;> try rfl
  · exact absurd (show normPair kind key from Or.inl ⟨c1, c2⟩) h
  · exact absurd (show normPair kind key from Or.inr (Or.inl ⟨c3, c4⟩)) h
  · exact absurd (show normPair kind key from Or.inr (Or.inr ⟨c5, c6⟩)) h

theorem normalizeValue_inDomain (kind key : String) (v : GoValue) :
    inDomain kind key (normalizeValue kind key v) = true := by
  by_cases hi : intRule kind key
  · rw [normalizeValue_intRule kind key v hi]
    have hb := clampToInt_bounds v 0 100 (by norm_num)
    simp [inDomain, hi]
    exact hb
  · by_cases ht : kind = "thermostat" ∧ key = "temperature"
    · obtain ⟨ht1, ht2⟩ := ht
      subst ht1; subst ht2
      rw [normalizeValue_tempRule _ _ v rfl rfl]
      have hb := clampToFloat_bounds v 10 30 (by norm_num)
      simp [inDomain, intRule]
      exact hb
    · by_cases hbr : boolRule kind key
      · rw [normalizeValue_boolRule kind key v hbr]
        simp [inDomain, hi, ht, hbr]
      · by_cases hmode : key = "mode"
        · subst hmode
          simp [inDomain, hi, ht, hbr]
        · rw [normalizeValue_passthrough kind key v
            (fun hnp => by rcases hnp with hx | hx | hx; exacts [hi hx, ht hx, hbr hx]) hmode]
          simp [inDomain, hi, ht, hbr]

theorem foldl_norm_all (kind : String) (st0 : GoState) (upd : List (String × GoValue))
    (h0 : st0.all (fun kv => inDomain kind kv.1 kv.2) = true) :
    (upd.foldl (fun st kv => mapSet st kv.1 (normalizeValue kind kv.1 kv.2)) st0).all
      (fun kv => inDomain kind kv.1 kv.2) = true := by
  induction upd generalizing st0 with
  | nil => simpa using h0
  | cons kv tl ih =>
    simp only [List.foldl_cons]
    exact ih _ (mapSet_all st0 kv.1 _ _ h0 (normalizeValue_inDomain kind kv.1 kv.2))

theorem update_preserves_storeInv (s : Store) (id : String) (upd : List (String × GoValue))
    (h : storeInv s = true) : storeInv (s.Update id upd).1 = true := by
  unfold Store.Update
  cases hd : mapGet s.devices id with
  | none => simpa using h
  | some d =>
    simp only []
    unfold storeInv at h ⊢
    apply mapSet_all _ _ _ _ h
    have hdev : deviceInv d = true := by
      have hmem := mapGet_mem s.devices id d hd
      simp [List.all_eq_true] at h
      exact h id d hmem
    unfold deviceInv at hdev ⊢
    exact foldl_norm_all d.kind d.state upd hdev

theorem applyOps_preserves_storeInv (s : Store) (ops : List (String × List (String × GoValue)))
    (h : storeInv s = true) : storeInv (applyOps s ops) = true := by
  induction ops generalizing s with
  | nil => simpa [applyOps] using h
  | cons op tl ih =>
    unfold applyOps
    simp only [List.foldl_cons]
    exact ih _ (update_preserves_storeInv s op.1 op.2 h)

theorem newStore_storeInv (devs : List Device) (h : devs.all deviceInv = true) :
    storeInv (NewStore devs) = true := by
  unfold NewStore storeInv
  simp only []
  suffices hgen : ∀ (m0 : List (String × Device)), m0.all (fun p => deviceInv p.2) = true →
      (devs.foldl (fun m d => mapSet m d.id d) m0).all (fun p => deviceInv p.2) = true by
    exact hgen [] (by simp)
  induction devs with
  | nil => intro m0 hm; simpa using hm
  | cons d tl ih =>
    intro m0 hm
    simp only [List.all_cons, Bool.and_eq_true] at h
    simp only [List.foldl_cons]
    exact ih h.2 _ (mapSet_all m0 d.id d _ hm h.1)

theorem storeList_aux (devs : List Device) (m0 : List (String × Device))
    (h : (devs.map Device.id).Nodup) :
    (devs.map Device.id).filterMap
      (fun i => mapGet (devs.foldl (fun m d => mapSet m d.id d) m0) i) = devs := by
  induction devs generalizing m0 with
  | nil => simp
  | cons d tl ih =>
    simp only [List.map_cons, List.nodup_cons] at h
    simp only [List.map_cons, List.foldl_cons, List.filterMap_cons]
    have hhead : mapGet (tl.foldl (fun m d => mapSet m d.id d) (mapSet m0 d.id d)) d.id
        = some d := by
      rw [mapGet_foldl_mapSet_notMem Device.id (fun d => d) tl _ d.id
        (fun b hb heq => h.1 (heq ▸ List.mem_map_of_mem Device.id hb))]
      exact mapGet_mapSet_self m0 d.id d
    rw [hhead, ih _ h.2]

theorem storeList_newStore (devs : List Device) (h : (devs.map Device.id).Nodup) :
    (NewStore devs).List = devs := by
  unfold NewStore Store.List
  exact storeList_aux devs [] h

theorem checkDevices_ok_of (cat : List RawDevice) (seen : List String)
    (hf : ∀ d ∈ cat, deviceFieldsOk d = true)
    (hnd : (cat.map RawDevice.id).Nodup)
    (hseen : ∀ d ∈ cat, d.id ∉ seen) :
    checkDevices cat seen = Except.ok (cat.map fixDevice) := by
  induction cat generalizing seen with
  | nil => simp [checkDevices]
  | cons d tl ih =>
    simp only [List.map_cons, List.nodup_cons] at hnd
    have hfd := hf d (List.mem_cons_self d tl)
    simp only [deviceFieldsOk, Bool.and_eq_true, Bool.not_eq_true', beq_eq_false_iff_ne,
      ne_eq] at hfd
    have hrec : checkDevices tl (d.id :: seen) = Except.ok (tl.map fixDevice) := by
      apply ih (d.id :: seen) (fun x hx => hf x (List.mem_cons_of_mem d hx)) hnd.2
      intro x hx
      simp only [List.mem_cons]
      push_neg
      constructor
      · intro heq
        exact hnd.1 (heq ▸ List.mem_map_of_mem RawDevice.id hx)
      · exact hseen x (List.mem_cons_of_mem d hx)
    unfold checkDevices
    rw [if_neg (by push_neg; exact ⟨hfd.1.1, hfd.1.2, hfd.2⟩)]
    rw [if_neg (hseen d (List.mem_cons_self d tl))]
    rw [hrec]
    simp

theorem checkDevices_ok_wf (cat : List RawDevice) (seen : List String) (ds : List Device)
    (h : checkDevices cat seen = Except.ok ds) :
    cat.all deviceFieldsOk = true ∧ (cat.map RawDevice.id).Nodup ∧
      ∀ d ∈ cat, d.id ∉ seen := by
  induction cat generalizing seen ds with
  | nil => simp
  | cons d tl ih =>
    unfold checkDevices at h
    by_cases hbad : d.id = "" ∨ d.name = "" ∨ d.kind = ""
    · rw [if_pos hbad] at h
      exact absurd h (by simp)
    · rw [if_neg hbad] at h
      by_cases hdup : d.id ∈ seen
      · rw [if_pos hdup] at h
        exact absurd h (by simp)
      · rw [if_neg hdup] at h
        cases hrec : checkDevices tl (d.id :: seen) with
        | error e => rw [hrec] at h; exact absurd h (by simp)
        | ok ds2 =>
          obtain ⟨hf, hnd, hs⟩ := ih (d.id :: seen) ds2 hrec
          push_neg at hbad
          refine ⟨?_, ?_, ?_⟩
          · simp only [List.all_cons, Bool.and_eq_true]
            refine ⟨?_, hf⟩
            simp [deviceFieldsOk, hbad.1, hbad.2.1, hbad.2.2]
          · simp only [List.map_cons, List.nodup_cons]
            refine ⟨?_, hnd⟩
            intro hmem
            obtain ⟨x, hx, hxid⟩ := List.mem_map.mp hmem
            exact (hs x hx) (by simp [hxid])
          · intro x hx
            rcases List.mem_cons.mp hx with rfl | hx2
            · exact hdup
            · intro hxs
              exact (hs x hx2) (List.mem_cons_of_mem _ hxs)

namespace HeapModel

theorem copyState_toplevel (h : Heap) (a : Nat) (h2 : Heap) (a2 : Nat)
    (ha : a < h.maps.length) (hc : copyState h a = (h2, a2)) :
    a2 ≠ a ∧
    mapAt h2 a2 = mapAt h a ∧
    (∀ k v, mapAt (heapWrite h2 a k v) a2 = mapAt h2 a2) ∧
    (∀ k v, mapAt (heapWrite h2 a2 k v) a = mapAt h2 a) := by
  cases hma : h.maps[a]? with
  | none => exact absurd (List.getElem?_eq_none_iff.mp hma) (Nat.not_le.mpr ha)
  | some m =>
    have hcopy : copyState h a = (⟨h.maps ++ [m]⟩, h.maps.length) := by
      simp [copyState, mapAt, hma, alloc]
    rw [hcopy] at hc
    cases hc
    have hsnapGet : mapAt (⟨h.maps ++ [m]⟩ : Heap) h.maps.length = some m := by
      simp [mapAt, List.getElem?_concat_length]
    have haGet : mapAt (⟨h.maps ++ [m]⟩ : Heap) a = some m := by
      simp [mapAt, List.getElem?_append_left ha, hma]
    refine ⟨by omega, by rw [hsnapGet, mapAt, hma], ?_, ?_⟩
    · intro k v
      rw [heapWrite, haGet]
      simp only [mapAt]
      rw [List.getElem?_set_ne (by omega)]
    · intro k v
      rw [heapWrite, hsnapGet]
      simp only [mapAt]
      rw [List.getElem?_set_ne (by omega)]

end HeapModel

/-- C4: every value normalized under one of the policy-table rules lands
inside its kind domain, and on a blind position the examples behave as
stated: 150 clamps to 100, -5 clamps to 0, and the float 42.6 rounds half
up to 43 before clamping; moreover clamp-after-`int(x+0.5)` agrees with
round-to-nearest-then-clamp on the whole float range. -/
theorem update_value_inDomain :
    (∀ kind key v, normPair kind key →
      inDomain kind key (normalizeValue kind key v) = true) ∧
    normalizeValue "blind" "position" (GoValue.vInt 150) = GoValue.vInt 100 ∧
    normalizeValue "blind" "position" (GoValue.vInt (-5)) = GoValue.vInt 0 ∧
    normalizeValue "blind" "position" (GoValue.vFloat64 (Rat.divInt 213 5)) = GoValue.vInt 43 ∧
    (∀ x : ℚ, clampToInt (GoValue.vFloat64 x) 0 100 =
      clampInt (Int.floor (x + 1/2)) 0 100) := by
  refine ⟨fun kind key v _ => normalizeValue_inDomain kind key v, by decide, by decide, ?_, ?_⟩
  · simp only [normalizeValue, clampToInt, rat_add_half]
    decide
  · intro x
    simp only [clampToInt]
    unfold goTrunc
    by_cases h : 0 ≤ x + 1/2
    · rw [if_pos h]
    · rw [if_neg h]
      have hx : x + 1/2 ≤ 0 := le_of_lt (not_le.mp h)
      have hc : Int.ceil (x + 1/2) ≤ 0 := Int.ceil_le.mpr (by exact_mod_cast hx)
      have hf : Int.floor (x + 1/2) ≤ 0 := le_trans (Int.floor_le_ceil _) hc
      unfold clampInt
      split_ifs <;> omega

/-- Witness for C4 at a concrete input. -/
theorem update_value_inDomain_witness :
    inDomain "blind" "position" (normalizeValue "blind" "position" (GoValue.vInt 150)) = true :=
  update_value_inDomain.1 "blind" "position" (GoValue.vInt 150) (by decide)

/-- C1 counterexample: the numeric string (json.Number) "42.6" and the
float 42.6 denote the same number, but normalization of a blind position
maps the float to 43 and the string to 0, because `clampToInt` only
accepts a `json.Number` through `Int64()`; so numeric coercion is not
uniform across the three representations and the clamp/round rule is not
applied to the coerced number 42.6. -/
theorem normalize_numeric_string_cex :
    normalizeValue "blind" "position" (GoValue.vFloat64 (Rat.divInt 426 10)) = GoValue.vInt 43 ∧
    normalizeValue "blind" "position" (GoValue.vNumber "42.6") = GoValue.vInt 0 ∧
    parseFloat "42.6" = some (Rat.divInt 426 10) := by
  refine ⟨?_, by decide, by decide⟩
  simp only [normalizeValue, clampToInt, rat_add_half]
  decide

/-- C1 amended: integer, int64 and float representations of the same
integer normalize identically under the integer rule, and a numeric
string is accepted uniformly only when it parses as an integer (for the
integer rule) or as a float (for the thermostat rule); an integer rule
fed a numeric string that does not parse as an integer stores the domain
minimum 0. -/
theorem normalize_numeric_uniform :
    (∀ kind key (n : Int), intRule kind key →
      normalizeValue kind key (GoValue.vFloat64 (n : ℚ)) = normalizeValue kind key (GoValue.vInt n) ∧
      normalizeValue kind key (GoValue.vInt64 n) = normalizeValue kind key (GoValue.vInt n) ∧
      (∀ s, parseInt64 s = some n →
        normalizeValue kind key (GoValue.vNumber s) = normalizeValue kind key (GoValue.vInt n))) ∧
    (∀ (n : Int), normalizeValue "thermostat" "temperature" (GoValue.vInt n) =
      normalizeValue "thermostat" "temperature" (GoValue.vFloat64 (n : ℚ))) ∧
    (∀ s x, parseFloat s = some x →
      normalizeValue "thermostat" "temperature" (GoValue.vNumber s) =
        normalizeValue "thermostat" "temperature" (GoValue.vFloat64 x)) ∧
    (∀ kind key s, intRule kind key → parseInt64 s = none →
      normalizeValue kind key (GoValue.vNumber s) = GoValue.vInt 0) := by
  refine ⟨?_, ?_, ?_, ?_⟩
  · intro kind key n h
    rw [normalizeValue_intRule kind key _ h, normalizeValue_intRule kind key _ h,
      normalizeValue_intRule kind key _ h]
    refine ⟨?_, rfl, ?_⟩
    · simp only [clampToInt]
      have : goTrunc ((n : ℚ) + 1/2) = if 0 ≤ n then n else n + 1 := goTrunc_int_add_half n
      rw [this]
      by_cases hn : 0 ≤ n
      · rw [if_pos hn]
      · rw [if_neg hn]
        congr 1
        unfold clampInt
        split_ifs <;> omega
    · intro s hs
      rw [normalizeValue_intRule kind key _ h]
      simp only [clampToInt, hs]
  · intro n
    rw [normalizeValue_tempRule _ _ _ rfl rfl, normalizeValue_tempRule _ _ _ rfl rfl]
    rfl
  · intro s x hs
    rw [normalizeValue_tempRule _ _ _ rfl rfl, normalizeValue_tempRule _ _ _ rfl rfl]
    simp only [clampToFloat, hs]
  · intro kind key s h hs
    rw [normalizeValue_intRule kind key _ h]
    simp only [clampToInt, hs]

/-- Witness for C1: the numeric string "42" normalizes like the
integer 42. -/
theorem normalize_numeric_uniform_witness :
    normalizeValue "blind" "position" (GoValue.vNumber "42") =
      normalizeValue "blind" "position" (GoValue.vInt 42) :=
  (normalize_numeric_uniform.1 "blind" "position" 42 (by decide)).2.2 "42" (by decide)

/-- C5 counterexample: an uninterpretable value for the thermostat
temperature rule is stored as the range minimum 10.0, not the float zero
value 0.0 the claim states. -/
theorem normalize_fallback_cex :
    normalizeValue "thermostat" "temperature" GoValue.vOther = GoValue.vFloat64 10 ∧
    normalizeValue "thermostat" "temperature" GoValue.vOther ≠ GoValue.vFloat64 0 := by
  decide

/-- C5 amended: normalization is total and never rejects an update; an
uninterpretable value is coerced to the rule fallback, which is the
domain minimum for the numeric rules (0 for position/level, 10.0 for
temperature) and false for boolean keys, and `Update` still succeeds. -/
theorem normalize_fallback (kind key : String) (v : GoValue) :
    (intRule kind key → intUninterpretable v = true →
      normalizeValue kind key v = GoValue.vInt 0) ∧
    (kind = "thermostat" → key = "temperature" → floatUninterpretable v = true →
      normalizeValue kind key v = GoValue.vFloat64 10) ∧
    (boolRule kind key → boolUninterpretable v = true →
      normalizeValue kind key v = GoValue.vBool false) ∧
    (∀ (s : Store) (id : String) (d : Device), mapGet s.devices id = some d →
      ∃ d2, (s.Update id [(key, v)]).2 = Except.ok d2) := by
  refine ⟨?_, ?_, ?_, ?_⟩
  · intro h hv
    rw [normalizeValue_intRule kind key v h]
    cases v with
    | vString s => rfl
    | vBool b => rfl
    | vOther => rfl
    | vNumber s =>
      simp only [intUninterpretable, Option.isNone_iff_eq_none] at hv
      simp [clampToInt, hv]
    | vInt n => simp [intUninterpretable] at hv
    | vInt64 n => simp [intUninterpretable] at hv
    | vFloat64 x => simp [intUninterpretable] at hv
    | vFloat32 x => simp [intUninterpretable] at hv
  · intro h1 h2 hv
    rw [normalizeValue_tempRule kind key v h1 h2]
    cases v with
    | vString s => rfl
    | vBool b => rfl
    | vOther => rfl
    | vNumber s =>
      simp only [floatUninterpretable, Option.isNone_iff_eq_none] at hv
      simp [clampToFloat, hv]
    | vInt n => simp [floatUninterpretable] at hv
    | vInt64 n => simp [floatUninterpretable] at hv
    | vFloat64 x => simp [floatUninterpretable] at hv
    | vFloat32 x => simp [floatUninterpretable] at hv
  · intro h hv
    rw [normalizeValue_boolRule kind key v h]
    cases v with
    | vFloat32 x => rfl
    | vNumber s => rfl
    | vOther => rfl
    | vInt n => simp [boolUninterpretable] at hv
    | vInt64 n => simp [boolUninterpretable] at hv
    | vFloat64 x => simp [boolUninterpretable] at hv
    | vBool b => simp [boolUninterpretable] at hv
    | vString s => simp [boolUninterpretable] at hv
  · intro s id d hd
    refine ⟨mergedDevice d [(key, v)], ?_⟩
    unfold Store.Update
    rw [hd]
    rfl

/-- Witness for C5 at a concrete input. -/
theorem normalize_fallback_witness :
    normalizeValue "blind" "position" GoValue.vOther = GoValue.vInt 0 :=
  (normalize_fallback "blind" "position" GoValue.vOther).1 (by decide) (by decide)

/-- C10: a catalog that decodes to an empty device list fails loading
with "no devices defined", and the registry is never constructed. -/
theorem loadDevices_empty_error :
    loadDevices [] = Except.error "no devices defined" ∧
    startRegistry [] = Except.error "no devices defined" :=
  ⟨rfl, rfl⟩

/-- C8 counterexample: the empty catalog vacuously has unique ids and all
fields present, yet loading fails. -/
theorem loadDevices_empty_valid_cex :
    catalogWellFormed [] = true ∧
    loadDevices [] = Except.error "no devices defined" :=
  ⟨by decide, rfl⟩

/-- C8 amended: a catalog with a duplicate id or a missing id/name/kind
fails to load (nothing is loaded); every non-empty catalog with unique
ids and all three fields present loads successfully and the registry
lists the devices in catalog order. -/
theorem loadDevices_validation (cat : List RawDevice) :
    (catalogWellFormed cat = false → ∃ e, loadDevices cat = Except.error e) ∧
    (catalogWellFormed cat = true → cat ≠ [] →
      loadDevices cat = Except.ok (cat.map fixDevice) ∧
      (NewStore (cat.map fixDevice)).List = cat.map fixDevice) := by
  constructor
  · intro hwf
    cases hcat : cat with
    | nil => rw [hcat] at hwf; exact absurd hwf (by decide)
    | cons d tl =>
      unfold loadDevices
      rw [if_neg (by simp)]
      cases hchk : checkDevices (d :: tl) [] with
      | error e => exact ⟨e, rfl⟩
      | ok ds =>
        obtain ⟨hf, hnd, _⟩ := checkDevices_ok_wf (d :: tl) [] ds hchk
        rw [hcat] at hwf
        unfold catalogWellFormed at hwf
        rw [hf, decide_eq_true hnd] at hwf
        exact absurd hwf (by decide)
  · intro hwf hne
    unfold catalogWellFormed at hwf
    simp only [Bool.and_eq_true, decide_eq_true_eq] at hwf
    have hload : loadDevices cat = Except.ok (cat.map fixDevice) := by
      unfold loadDevices
      rw [if_neg (by simpa using hne)]
      exact checkDevices_ok_of cat []
        (fun d hd => by
          have h2 := hwf.1
          simp only [List.all_eq_true] at h2
          exact h2 d hd)
        hwf.2 (fun d _ => List.not_mem_nil d.id)
    refine ⟨hload, ?_⟩
    apply storeList_newStore
    have h3 : (cat.map fixDevice).map Device.id = cat.map RawDevice.id := by
      simp [List.map_map, fixDevice, Function.comp]
    rw [h3]
    exact hwf.2

/-- Witness for C8 on a concrete one-device catalog. -/
theorem loadDevices_validation_witness :
    loadDevices [demoBlindRaw] = Except.ok ([demoBlindRaw].map fixDevice) ∧
    (NewStore ([demoBlindRaw].map fixDevice)).List = [demoBlindRaw].map fixDevice :=
  (loadDevices_validation [demoBlindRaw]).2 (by decide) (by decide)

/-- C2 counterexample: a loaded catalog may carry a state value outside
the normalized domain (blind position 150), because neither `loadDevices`
nor `NewStore` normalizes catalog state; the initial registry state
violates the invariant. -/
theorem storeInv_initial_cex :
    loadDevices [badBlindRaw] = Except.ok [fixDevice badBlindRaw] ∧
    Store.Get (NewStore [fixDevice badBlindRaw]) "blind2" = some (fixDevice badBlindRaw) ∧
    mapGet (fixDevice badBlindRaw).state "position" = some (GoValue.vInt 150) ∧
    inDomain "blind" "position" (GoValue.vInt 150) = false ∧
    storeInv (NewStore [fixDevice badBlindRaw]) = false :=
  ⟨rfl, by decide, by decide, by decide, by decide⟩

/-- C2 amended: if every device of the loaded catalog starts inside the
normalized domains, then after any sequence of `Update` calls every
device's state value for a normalized kind/key pair is still inside its
domain (updates themselves always write in-domain values). -/
theorem storeInv_reachable (devs : List Device)
    (ops : List (String × List (String × GoValue)))
    (h : devs.all deviceInv = true) :
    storeInv (applyOps (NewStore devs) ops) = true ∧
    ∀ id d, Store.Get (applyOps (NewStore devs) ops) id = some d → deviceInv d = true := by
  have h1 := applyOps_preserves_storeInv _ ops (newStore_storeInv devs h)
  refine ⟨h1, ?_⟩
  intro id d hget
  unfold Store.Get at hget
  have hmem := mapGet_mem _ _ _ hget
  unfold storeInv at h1
  simp only [List.all_eq_true] at h1
  exact h1 (id, d) hmem

/-- Witness for C2 on a concrete catalog and update sequence. -/
theorem storeInv_reachable_witness :
    storeInv (applyOps (NewStore [demoBlind])
      [("blind1", [("position", GoValue.vInt 150)])]) = true :=
  (storeInv_reachable [demoBlind] [("blind1", [("position", GoValue.vInt 150)])] (by decide)).1

/-- C3: for a device present in the registry, `Update` commits and
returns exactly the normalized merge of the prior state with the supplied
pairs, and `Get` after `Update` returns that same merged device: each
supplied key maps to the normalization of its supplied value, every other
key keeps its prior value. -/
theorem update_get_merge (s : Store) (id : String) (d : Device)
    (upd : List (String × GoValue))
    (hd : mapGet s.devices id = some d) (hu : (upd.map Prod.fst).Nodup) :
    s.Update id upd =
      ({ s with devices := mapSet s.devices id (mergedDevice d upd) },
        Except.ok (mergedDevice d upd)) ∧
    Store.Get (s.Update id upd).1 id = some (mergedDevice d upd) ∧
    ∀ k, mapGet (mergedDevice d upd).state k =
      match mapGet upd k with
      | some v => some (normalizeValue d.kind k v)
      | none => mapGet d.state k := by
  have hstep : s.Update id upd =
      ({ s with devices := mapSet s.devices id (mergedDevice d upd) },
        Except.ok (mergedDevice d upd)) := by
    unfold Store.Update
    rw [hd]
    rfl
  refine ⟨hstep, ?_, ?_⟩
  · rw [hstep]
    unfold Store.Get
    exact mapGet_mapSet_self s.devices id (mergedDevice d upd)
  · intro k
    exact mergeState_get d.kind d.state upd hu k

/-- Witness for C3 on a concrete store and update. -/
theorem update_get_merge_witness :
    Store.Get ((NewStore [demoBlind]).Update "blind1"
      [("position", GoValue.vInt 150)]).1 "blind1"
      = some (mergedDevice demoBlind [("position", GoValue.vInt 150)]) :=
  (update_get_merge (NewStore [demoBlind]) "blind1" demoBlind
    [("position", GoValue.vInt 150)] (by decide) (by decide)).2.1

/-- C6: updating an id not present in the registry returns the not-found
error and leaves the registry unchanged, and on the websocket path the
error is sent only as a direct reply to the requesting connection with
nothing put on the broadcast channel. -/
theorem update_unknown_notFound (s : Store) (id : String)
    (upd : List (String × GoValue)) (h : mapGet s.devices id = none) :
    s.Update id upd = (s, Except.error ("device not found: " ++ id)) ∧
    ∃ e, handleIncoming s { type := "set", id := id, state := upd } =
      (s, some (WSReply.errorMsg e), none) := by
  have hupd : s.Update id upd = (s, Except.error ("device not found: " ++ id)) := by
    unfold Store.Update
    rw [h]
  refine ⟨hupd, ?_⟩
  by_cases hid : id = ""
  · exact ⟨"missing device id", by simp [handleIncoming, hid]⟩
  · refine ⟨"device not found: " ++ id, ?_⟩
    unfold handleIncoming
    rw [if_neg (by simp), if_neg hid, hupd]

/-- Witness for C6 at a concrete store and unknown id. -/
theorem update_unknown_notFound_witness :
    (NewStore [demoBlind]).Update "nope" [] =
      (NewStore [demoBlind], Except.error ("device not found: " ++ "nope")) :=
  (update_unknown_notFound (NewStore [demoBlind]) "nope" [] (by decide)).1

/-- C9: a websocket "set" naming a known device with an empty (or
absent, decoded as empty) state map succeeds, leaves the device state
unchanged, and still puts an update for that device on the broadcast
channel; the HTTP PUT path rejects the same empty state with a 400
"missing state" before touching the registry. -/
theorem ws_empty_state_accepted (s : Store) (id : String) (d : Device)
    (hid : id ≠ "") (hd : mapGet s.devices id = some d) :
    handleIncoming s { type := "set", id := id, state := [] } = (s, none, some d) ∧
    handlePut s id (some []) = (s, HTTPResult.err 400 "missing state", none) := by
  have hupd : s.Update id [] = (s, Except.ok d) := by
    unfold Store.Update
    rw [hd]
    simp only [List.foldl_nil]
    rw [mapSet_self s.devices id d hd]
  constructor
  · unfold handleIncoming
    rw [if_neg (by simp), if_neg hid, hupd]
  · rfl

/-- Witness for C9 on a concrete store. -/
theorem ws_empty_state_accepted_witness :
    handleIncoming (NewStore [demoBlind]) { type := "set", id := "blind1", state := [] }
      = (NewStore [demoBlind], none, some demoBlind) ∧
    handlePut (NewStore [demoBlind]) "blind1" (some [])
      = (NewStore [demoBlind], HTTPResult.err 400 "missing state", none) :=
  ws_empty_state_accepted (NewStore [demoBlind]) "blind1" demoBlind (by decide) (by decide)

/-- C7 counterexample: `copyState` copies only the top-level map, so a
nested reference value is shared between the registry state and the
snapshot; writing through the nested map reached from the snapshot
changes the value the registry's own state observes. -/
theorem copyState_nested_alias_cex :
    (HeapModel.copyState aliasHeap 1).2 ≠ 1 ∧
    HeapModel.readVal (HeapModel.copyState aliasHeap 1).1
      (HeapModel.copyState aliasHeap 1).2 "nested" = some (HeapModel.HVal.ref 0) ∧
    HeapModel.readVal (HeapModel.copyState aliasHeap 1).1 1 "nested"
      = some (HeapModel.HVal.ref 0) ∧
    HeapModel.readNested (HeapModel.copyState aliasHeap 1).1 1 "nested" "a"
      = some (HeapModel.HVal.scalar (GoValue.vInt 1)) ∧
    HeapModel.readNested
      (HeapModel.heapWrite (HeapModel.copyState aliasHeap 1).1 0 "a"
        (HeapModel.HVal.scalar (GoValue.vInt 2))) 1 "nested" "a"
      = some (HeapModel.HVal.scalar (GoValue.vInt 2)) := by
  decide

/-- C7 amended: the snapshot's top-level state map is a fresh,
independent map with the same entries: top-level writes to the registry
map never change the snapshot map and vice versa (deep independence fails
only for nested reference values, per the counterexample). -/
theorem copyState_toplevel_independent (h : HeapModel.Heap) (a : Nat)
    (h2 : HeapModel.Heap) (a2 : Nat) (ha : a < h.maps.length)
    (hc : HeapModel.copyState h a = (h2, a2)) :
    a2 ≠ a ∧
    HeapModel.mapAt h2 a2 = HeapModel.mapAt h a ∧
    (∀ k v, HeapModel.mapAt (HeapModel.heapWrite h2 a k v) a2 = HeapModel.mapAt h2 a2) ∧
    (∀ k v, HeapModel.mapAt (HeapModel.heapWrite h2 a2 k v) a = HeapModel.mapAt h2 a) :=
  HeapModel.copyState_toplevel h a h2 a2 ha hc

/-- Witness for C7 on the concrete two-map heap. -/
theorem copyState_toplevel_independent_witness :
    HeapModel.mapAt aliasHeapCopy 2 = HeapModel.mapAt aliasHeap 1 :=
  (copyState_toplevel_independent aliasHeap 1 aliasHeapCopy 2 (by decide) (by decide)).2.1
